import Mathlib

/-!
# Verification of the qr-score core (decoder ensemble, scorer, validation glue)

Shallow embedding of the Rust sources of `qr-score`:

* `src/types.rs`   — data model (`StressResults`, `Weights`, `ValidationResult`, …)
* `src/error.rs`   — `QrScoreError`
* `src/decoder.rs` — the four-strategy decode ensemble (`try_decode`, `multi_decode`)
* `src/scorer.rs`  — scoring (`calculate_score`) and the contrast meter
  (`measure_contrast`)
* `src/lib.rs`     — dimension guard and the top-level `validate`

Modelling conventions:

* Rust `f32` arithmetic is modelled by exact arithmetic (`ℚ` where the values
  flowing in are rationals, `ℝ` for the sRGB linearization which uses a real
  power).  `f32::round` (half away from zero) agrees with Mathlib's `round`
  (half up) on the non-negative values that occur here.
* `BTreeMap<String, _>` is modelled as an association list `List (String × _)`;
  the map invariant (keys unique) appears as a `Nodup` hypothesis where a
  statement needs it.
* The external decoding libraries (rxing, rqrr) are opaque: a call into one is
  a `LibOutcome` — it can crash (`panics`), fail, or return a raw decode.  The
  glue code around those calls (hint handling, `catch_unwind`, metadata
  extraction, strategy order) is translated from the source.
* A Rust computation that may panic is modelled by `PanicOr`.
-/

namespace QrScore

/-! ## Data model (src/types.rs, src/error.rs) -/

/-- `types.rs` `ErrorCorrectionLevel`: the closed QR error-correction enum. -/
inductive ErrorCorrectionLevel : Type
  | L
  | M
  | Q
  | H
deriving DecidableEq, Repr

/-- `types.rs` `QrMetadata`. -/
structure QrMetadata where
  error_correction : ErrorCorrectionLevel
deriving DecidableEq, Repr

/-- `types.rs` `DecodeResult`. -/
structure DecodeResult where
  content : String
  metadata : Option QrMetadata
deriving DecidableEq, Repr

/-- `error.rs` `QrScoreError`. -/
inductive QrScoreError : Type
  | ImageLoad (msg : String)
  | DecodeFailed
  | InvalidSvg (msg : String)
  | RenderFailed
  | DimensionsTooLarge (width height max_dimension : ℕ)
  | DimensionOverflow (width height : ℕ)
deriving DecidableEq, Repr

/-- `types.rs` `StressResults`: pass/fail per variant name plus the contrast
measurement.  The `BTreeMap<String, bool>` is an association list; the f32
`contrast_ratio` is a rational. -/
structure StressResults where
  tests : List (String × Bool)
  contrast_ratio : ℚ
deriving DecidableEq, Repr

/-- `types.rs` `Weights`: non-negative (u32) weight per variant name plus the
contrast weight (the Rust field is also called `contrast_ratio`). -/
structure Weights where
  tests : List (String × ℕ)
  contrast_ratio : ℕ
deriving DecidableEq, Repr

/-- `types.rs` `ValidationResult` (score is u8, here ℕ with `≤ 100` proved). -/
structure ValidationResult where
  score : ℕ
  decodable : Bool
  content : Option String
  metadata : Option QrMetadata
  stress_results : StressResults
deriving DecidableEq, Repr

/-! ## Scorer (src/scorer.rs, `calculate_score`) -/

/-- `scorer.rs:61` `let total_weight: u32 = weights.tests.values().sum::<u32>()
+ weights.contrast_ratio;`. -/
def total_weight (w : Weights) : ℕ :=
  (w.tests.map Prod.snd).sum + w.contrast_ratio

/-- `scorer.rs:67-71`: the passed-tests weight sum
`stress.tests.iter().filter(passed).filter_map(weights.tests.get).map(as f32).sum()`. -/
def test_score (s : StressResults) (w : Weights) : ℚ :=
  (((s.tests.filter fun p => p.2).filterMap fun p => w.tests.lookup p.1).map
    fun n => (n : ℚ)).sum

/-- `scorer.rs:60-77` `calculate_score`.  `clamp(0.0, 1.0)` is
`min (max · 0) 1`; `.round().min(100.0) as u8` is `(min (round ·) 100).toNat`
(the `as u8` cast saturates at 0 for negatives, which `Int.toNat` matches). -/
def calculate_score (s : StressResults) (w : Weights) : ℕ :=
  if total_weight w = 0 then 0
  else
    let normalized : ℚ := min (max (s.contrast_ratio / (7 / 10)) 0) 1
    let score : ℚ := test_score s w + normalized * (w.contrast_ratio : ℚ)
    (min (round (score / (total_weight w : ℚ) * 100)) 100).toNat

/-- Written from the spec's words (§4.5) for claim C4, to be compared with
`calculate_score`: "test_score = sum(weights.tests[name] for each name in
stress.tests where stress.tests[name] is true and name exists in weights.tests)". -/
def spec_test_score (s : StressResults) (w : Weights) : ℚ :=
  ((s.tests.filter fun p => p.2 && (w.tests.lookup p.1).isSome).map
    fun p => ((w.tests.lookup p.1).getD 0 : ℚ)).sum

/-- Written from the spec's words (§4.5) for claim C4: `score =
round(100 * raw / total_weight)`, clamped to at most 100, and 0 when the
total weight is 0. -/
def spec_score (s : StressResults) (w : Weights) : ℕ :=
  if total_weight w = 0 then 0
  else
    let normalized : ℚ := min (max (s.contrast_ratio / (7 / 10)) 0) 1
    let raw : ℚ := spec_test_score s w + normalized * (w.contrast_ratio : ℚ)
    min (round (100 * raw / (total_weight w : ℚ))).toNat 100

/-! ### Basic lemmas about the scorer -/

theorem toNat_min_100 (r : ℤ) : (min r 100).toNat = min r.toNat 100 := by
  rcases le_total r 100 with h | h
  · rw [min_eq_left h]
    omega
  · rw [min_eq_right h]
    omega

theorem test_score_nil (c : ℚ) (w : Weights) : test_score ⟨[], c⟩ w = 0 := rfl

theorem test_score_cons (k : String) (b : Bool) (L : List (String × Bool)) (c : ℚ)
    (w : Weights) :
    test_score ⟨(k, b) :: L, c⟩ w =
      (if b then ((w.tests.lookup k).getD 0 : ℚ) else 0) + test_score ⟨L, c⟩ w := by
  cases b
  · simp [test_score, List.filter_cons]
  · cases h : w.tests.lookup k <;>
      simp [test_score, List.filter_cons, List.filterMap_cons, h]

theorem spec_test_score_nil (c : ℚ) (w : Weights) : spec_test_score ⟨[], c⟩ w = 0 := rfl

theorem spec_test_score_cons (k : String) (b : Bool) (L : List (String × Bool)) (c : ℚ)
    (w : Weights) :
    spec_test_score ⟨(k, b) :: L, c⟩ w =
      (if b then ((w.tests.lookup k).getD 0 : ℚ) else 0) + spec_test_score ⟨L, c⟩ w := by
  cases b
  · simp [spec_test_score, List.filter_cons]
  · cases h : w.tests.lookup k <;>
      simp [spec_test_score, List.filter_cons, h]

theorem test_score_eq_spec_test_score (s : StressResults) (w : Weights) :
    test_score s w = spec_test_score s w := by
  obtain ⟨L, c⟩ := s
  induction L with
  | nil => rfl
  | cons p L ih =>
    obtain ⟨k, b⟩ := p
    rw [test_score_cons, spec_test_score_cons, ih]

/-- C4: `calculate_score` agrees with the spec's scoring formula (§4.5) and its
result is an integer in `0..=100` (the return type is ℕ, so only `≤ 100` needs
proof); the division is guarded by the `total_weight = 0` check in both. -/
theorem calculate_score_eq_spec (s : StressResults) (w : Weights) :
    calculate_score s w = spec_score s w ∧ calculate_score s w ≤ 100 := by
  constructor
  · unfold calculate_score spec_score
    split
    · rfl
    · rw [test_score_eq_spec_test_score, toNat_min_100]
      ring_nf
  · unfold calculate_score
    split
    · exact Nat.zero_le 100
    · rw [toNat_min_100]
      exact min_le_right _ _

/-! ### Association-list lemmas (the `BTreeMap` model) -/

theorem lookup_cons_self (k : String) (b : β) (L : List (String × β)) :
    ((k, b) :: L).lookup k = some b := by
  simp [List.lookup]

theorem lookup_cons_ne (a k : String) (b : β) (L : List (String × β)) (h : a ≠ k) :
    ((k, b) :: L).lookup a = L.lookup a := by
  simp [List.lookup, beq_false_of_ne h]

theorem lookup_eq_none_of_not_mem (k : String) (L : List (String × β))
    (h : k ∉ L.map Prod.fst) : L.lookup k = none := by
  induction L with
  | nil => rfl
  | cons p L ih =>
    obtain ⟨a, b⟩ := p
    simp only [List.map_cons, List.mem_cons] at h
    push_neg at h
    rw [lookup_cons_ne _ _ _ _ h.1, ih h.2]

theorem lookup_eq_some_of_mem (k : String) (L : List (String × β))
    (h : k ∈ L.map Prod.fst) : ∃ b, L.lookup k = some b ∧ (k, b) ∈ L := by
  induction L with
  | nil => simp at h
  | cons p L ih =>
    obtain ⟨a, b⟩ := p
    by_cases hk : k = a
    · subst hk
      exact ⟨b, lookup_cons_self k b L, List.mem_cons_self _ _⟩
    · simp only [List.map_cons, List.mem_cons] at h
      obtain ⟨b', hb', hmem⟩ := ih (h.resolve_left hk)
      exact ⟨b', by rw [lookup_cons_ne _ _ _ _ hk]; exact hb', List.mem_cons_of_mem _ hmem⟩

/-- With unique keys, the passed-tests weight sum is a `Finset` sum over the
key set. -/
theorem test_score_eq_sum_keys (s : StressResults) (w : Weights)
    (hnd : (s.tests.map Prod.fst).Nodup) :
    test_score s w =
      ∑ k ∈ (s.tests.map Prod.fst).toFinset,
        (if s.tests.lookup k = some true then ((w.tests.lookup k).getD 0 : ℚ) else 0) := by
  obtain ⟨L, c⟩ := s
  induction L with
  | nil => simp [test_score_nil]
  | cons p L ih =>
    obtain ⟨k, b⟩ := p
    simp only [List.map_cons, List.nodup_cons] at hnd
    rw [test_score_cons, ih hnd.2]
    simp only [List.map_cons, List.toFinset_cons]
    rw [Finset.sum_insert (by simpa [List.mem_toFinset] using hnd.1)]
    congr 1
    · rw [lookup_cons_self]
      cases b <;> simp
    · apply Finset.sum_congr rfl
      intro a ha
      rw [List.mem_toFinset] at ha
      have hak : a ≠ k := fun h => hnd.1 (h ▸ ha)
      rw [lookup_cons_ne _ _ _ _ hak]

/-- With unique keys, summing the looked-up weights over the weight table's own
key set gives the sum of the weight values. -/
theorem sum_lookup_eq_sum_values (w : Weights) (hnd : (w.tests.map Prod.fst).Nodup) :
    ∑ k ∈ (w.tests.map Prod.fst).toFinset, ((w.tests.lookup k).getD 0 : ℚ) =
      ((w.tests.map Prod.snd).sum : ℚ) := by
  obtain ⟨W, cw⟩ := w
  induction W with
  | nil => simp
  | cons p W ih =>
    obtain ⟨k, v⟩ := p
    simp only [List.map_cons, List.nodup_cons] at hnd
    simp only [List.map_cons, List.toFinset_cons]
    rw [Finset.sum_insert (by simpa [List.mem_toFinset] using hnd.1)]
    have hrest : ∑ a ∈ (W.map Prod.fst).toFinset, ((((k, v) :: W).lookup a).getD 0 : ℚ) =
        ∑ a ∈ (W.map Prod.fst).toFinset, ((W.lookup a).getD 0 : ℚ) := by
      apply Finset.sum_congr rfl
      intro a ha
      rw [List.mem_toFinset] at ha
      have hak : a ≠ k := fun h => hnd.1 (h ▸ ha)
      rw [lookup_cons_ne _ _ _ _ hak]
    rw [hrest, ih hnd.2, lookup_cons_self]
    simp only [Option.getD_some, List.map_cons, List.sum_cons]
    push_cast
    ring

theorem round_mono_q (a b : ℚ) (h : a ≤ b) : round a ≤ round b := by
  rw [round_eq, round_eq]
  exact Int.floor_le_floor (by linarith)

/-- C8: with the same weights, the same key set and the same contrast, a stress
outcome whose passing set contains another's scores at least as high. -/
theorem calculate_score_monotone (w : Weights) (s1 s2 : StressResults)
    (hc : s1.contrast_ratio = s2.contrast_ratio)
    (h1 : (s1.tests.map Prod.fst).Nodup)
    (h2 : (s2.tests.map Prod.fst).Nodup)
    (hkeys : ∀ k, k ∈ s1.tests.map Prod.fst ↔ k ∈ s2.tests.map Prod.fst)
    (hmono : ∀ k, s1.tests.lookup k = some true → s2.tests.lookup k = some true) :
    calculate_score s1 w ≤ calculate_score s2 w := by
  have hts : test_score s1 w ≤ test_score s2 w := by
    rw [test_score_eq_sum_keys s1 w h1, test_score_eq_sum_keys s2 w h2]
    have hfin : (s1.tests.map Prod.fst).toFinset = (s2.tests.map Prod.fst).toFinset :=
      Finset.ext fun k => by simp [List.mem_toFinset, hkeys k]
    rw [hfin]
    apply Finset.sum_le_sum
    intro k _
    by_cases h : s1.tests.lookup k = some true
    · rw [if_pos h, if_pos (hmono k h)]
    · rw [if_neg h]
      split
      · exact Nat.cast_nonneg _
      · exact le_refl 0
  unfold calculate_score
  split
  · exact Nat.zero_le _
  · rename_i htw
    have htpos : (0 : ℚ) < (total_weight w : ℚ) := by
      exact_mod_cast Nat.pos_of_ne_zero htw
    rw [hc]
    apply Int.toNat_le_toNat
    apply min_le_min _ (le_refl 100)
    apply round_mono_q
    gcongr

theorem calculate_score_eval (s : StressResults) (w : Weights) (h : total_weight w ≠ 0) :
    calculate_score s w =
      (min (round ((test_score s w +
          min (max (s.contrast_ratio / (7 / 10)) 0) 1 * (w.contrast_ratio : ℚ)) /
        (total_weight w : ℚ) * 100)) 100).toNat := by
  unfold calculate_score
  rw [if_neg h]

/-- C5 (amended): if additionally every key of the weight table occurs among
the stress outcome's keys (and keys are unique, as `BTreeMap` guarantees),
then all-pass with `contrast_ratio ≥ 0.7` scores exactly 100. -/
theorem calculate_score_all_pass (s : StressResults) (w : Weights)
    (htw : 0 < total_weight w)
    (hall : ∀ p ∈ s.tests, p.2 = true)
    (hc : (7 : ℚ) / 10 ≤ s.contrast_ratio)
    (hs : (s.tests.map Prod.fst).Nodup)
    (hw : (w.tests.map Prod.fst).Nodup)
    (hsub : ∀ k, k ∈ w.tests.map Prod.fst → k ∈ s.tests.map Prod.fst) :
    calculate_score s w = 100 := by
  have htpos : (0 : ℚ) < (total_weight w : ℚ) := by exact_mod_cast htw
  have hts : test_score s w = ((w.tests.map Prod.snd).sum : ℚ) := by
    rw [test_score_eq_sum_keys s w hs]
    have hlook : ∀ k ∈ (s.tests.map Prod.fst).toFinset,
        (if s.tests.lookup k = some true then ((w.tests.lookup k).getD 0 : ℚ) else 0) =
          ((w.tests.lookup k).getD 0 : ℚ) := by
      intro k hk
      rw [List.mem_toFinset] at hk
      obtain ⟨b, hb, hmem⟩ := lookup_eq_some_of_mem k s.tests hk
      rw [if_pos (by rw [hb, show b = true from hall (k, b) hmem])]
    rw [Finset.sum_congr rfl hlook, ← sum_lookup_eq_sum_values w hw]
    symm
    apply Finset.sum_subset
    · intro k hk
      rw [List.mem_toFinset] at hk ⊢
      exact hsub k hk
    · intro k _ hnk
      rw [List.mem_toFinset] at hnk
      rw [lookup_eq_none_of_not_mem k w.tests hnk]
      simp
  have hnorm : min (max (s.contrast_ratio / (7 / 10)) 0) 1 = 1 := by
    have h1 : (1 : ℚ) ≤ s.contrast_ratio / (7 / 10) := by
      rw [le_div_iff₀ (by norm_num)]
      linarith
    rw [max_eq_left (le_trans zero_le_one h1), min_eq_right h1]
  rw [calculate_score_eval s w (Nat.pos_iff_ne_zero.mp htw), hts, hnorm]
  have hsum : ((w.tests.map Prod.snd).sum : ℚ) + 1 * (w.contrast_ratio : ℚ) =
      (total_weight w : ℚ) := by
    rw [total_weight]
    push_cast
    ring
  rw [hsum, div_self (ne_of_gt htpos)]
  norm_num [round_eq]
  decide

/-- C5 counterexample: all stress entries pass and `contrast_ratio = 0.7`, the
total weight is positive, yet the score is 50, not 100 — the weight key `"b"`
is absent from the stress outcome, so its weight inflates the denominator
without ever being earnable. -/
theorem calculate_score_all_pass_cex :
    0 < total_weight ⟨[("a", 1), ("b", 1)], 0⟩ ∧
    ([(("a" : String), true)].all fun p => p.2) = true ∧
    (7 : ℚ) / 10 ≤ ((7 : ℚ) / 10) ∧
    calculate_score ⟨[("a", true)], 7 / 10⟩ ⟨[("a", 1), ("b", 1)], 0⟩ = 50 ∧
    calculate_score ⟨[("a", true)], 7 / 10⟩ ⟨[("a", 1), ("b", 1)], 0⟩ ≠ 100 := by
  refine ⟨by decide, by decide, le_refl _, ?_, ?_⟩ <;>
    norm_num [calculate_score, total_weight, test_score, List.lookup, round_eq,
      List.filterMap_cons] <;> decide

theorem calculate_score_all_pass_witness :
    calculate_score ⟨[("a", true)], 7 / 10⟩ ⟨[("a", 2)], 1⟩ = 100 := by
  apply calculate_score_all_pass
  · decide
  · simp
  · exact le_refl _
  · simp
  · simp
  · simp

/-- C2 (amended): a stress key absent from the weight table contributes
nothing (dropping it leaves the score unchanged), while a weight-table key
absent from the stress outcome leaves `test_score` unchanged but does inflate
`total_weight` by its value — so it is not ignored by the score. -/
theorem calculate_score_key_mismatch (s : StressResults) (w : Weights) (k : String)
    (v : ℕ) (b : Bool) :
    (w.tests.lookup k = none →
      calculate_score ⟨(k, b) :: s.tests, s.contrast_ratio⟩ w = calculate_score s w) ∧
    (k ∉ s.tests.map Prod.fst →
      test_score s ⟨(k, v) :: w.tests, w.contrast_ratio⟩ = test_score s w ∧
      total_weight ⟨(k, v) :: w.tests, w.contrast_ratio⟩ = total_weight w + v) := by
  constructor
  · intro hnone
    have hts : test_score ⟨(k, b) :: s.tests, s.contrast_ratio⟩ w = test_score s w := by
      rw [show test_score s w = test_score ⟨s.tests, s.contrast_ratio⟩ w from rfl,
        test_score_cons, hnone]
      cases b <;> simp
    by_cases h : total_weight w = 0
    · unfold calculate_score
      rw [if_pos h, if_pos h]
    · rw [calculate_score_eval _ w h, calculate_score_eval s w h, hts]
  · intro hk
    constructor
    · obtain ⟨L, c⟩ := s
      induction L with
      | nil => rfl
      | cons p L ih =>
        obtain ⟨a, b'⟩ := p
        simp only [List.map_cons, List.mem_cons] at hk
        push_neg at hk
        rw [show test_score ⟨(a, b') :: L, c⟩ ⟨(k, v) :: w.tests, w.contrast_ratio⟩ =
              (if b' then ((((k, v) :: w.tests).lookup a).getD 0 : ℚ) else 0) +
                test_score ⟨L, c⟩ ⟨(k, v) :: w.tests, w.contrast_ratio⟩ from
            test_score_cons a b' L c _,
          test_score_cons, ih hk.2,
          lookup_cons_ne _ _ _ _ (fun h => hk.1 h.symm)]
    · simp only [total_weight, List.map_cons, List.sum_cons]
      omega

/-- C2 counterexample: adding the weight entry `("b", 1)`, whose key does not
occur in the stress outcome, changes the score from 100 to 50 — such entries
are not ignored at scoring time. -/
theorem calculate_score_key_mismatch_cex :
    ("b" ∉ ([("a", true)] : List (String × Bool)).map Prod.fst) ∧
    calculate_score ⟨[("a", true)], 0⟩ ⟨[("a", 1), ("b", 1)], 0⟩ ≠
      calculate_score ⟨[("a", true)], 0⟩ ⟨[("a", 1)], 0⟩ := by
  refine ⟨by decide, ?_⟩
  norm_num [calculate_score, total_weight, test_score, List.lookup, round_eq,
    List.filterMap_cons] <;> decide

theorem calculate_score_monotone_witness :
    calculate_score ⟨[("a", true)], 0⟩ ⟨[("a", 2)], 3⟩ ≤
      calculate_score ⟨[("a", true)], 0⟩ ⟨[("a", 2)], 3⟩ :=
  calculate_score_monotone ⟨[("a", 2)], 3⟩ ⟨[("a", true)], 0⟩ ⟨[("a", true)], 0⟩ rfl
    (by simp) (by simp) (fun k => Iff.rfl) (fun k h => h)

theorem calculate_score_key_mismatch_witness :
    calculate_score ⟨[("zz", true), ("a", true)], 0⟩ ⟨[("a", 1)], 0⟩ =
      calculate_score ⟨[("a", true)], 0⟩ ⟨[("a", 1)], 0⟩ :=
  (calculate_score_key_mismatch ⟨[("a", true)], 0⟩ ⟨[("a", 1)], 0⟩ "zz" 0 true).1 rfl

/-! ## Decoder ensemble (src/decoder.rs)

The external decoding libraries are opaque collaborators: what the embedding
keeps of a call into one is its observable outcome (`LibOutcome`): it can
crash (a Rust panic), fail, or return a raw decode.  Everything the source
does *around* those calls — `catch_unwind` on the rxing paths, the metadata
extraction, the strategy order, the luminance inversion — is translated
from `decoder.rs`. -/

/-- Outcome of one call into an external decoding library. -/
inductive LibOutcome (α : Type) : Type
  | panics
  | fails
  | ok (val : α)
deriving DecidableEq

/-- A Rust computation that can panic. -/
inductive PanicOr (α : Type) : Type
  | panicked
  | normal (val : α)
deriving DecidableEq

/-- `decoder.rs` `RawDecode`. -/
structure RawDecode where
  content : String
  error_correction : Option ErrorCorrectionLevel
deriving DecidableEq

/-- What a successful rxing call exposes: the text and the
`ERROR_CORRECTION_LEVEL` metadata entry's string, when present. -/
structure RxingRaw where
  text : String
  ecMeta : Option String
deriving DecidableEq

/-- What a successful rqrr `grid.decode()` exposes: `meta.ecc_level` (u16) and
the content. -/
structure RqrrRaw where
  eccLevel : ℕ
  content : String
deriving DecidableEq

/-- The two rxing binarizers used by `try_decode`. -/
inductive RxingBinarizer : Type
  | hybrid
  | globalHistogram
deriving DecidableEq

/-- One image together with the behaviour of the external decoders on it:
`rxingCall` is the outcome of the guarded rxing pipeline for a given
binarizer, `rqrrCall` the outcome of the rqrr pipeline
(`detect_grids` + `grids.first` + `grid.decode`) on a given luma buffer. -/
structure DecodeEnv where
  luma : List ℕ
  width : ℕ
  height : ℕ
  rxingCall : RxingBinarizer → LibOutcome RxingRaw
  rqrrCall : List ℕ → LibOutcome RqrrRaw

/-- `decoder.rs:118-126` `parse_ec_level`. -/
def parse_ec_level (s : String) : Option ErrorCorrectionLevel :=
  match s with
  | "L" => some ErrorCorrectionLevel.L
  | "M" => some ErrorCorrectionLevel.M
  | "Q" => some ErrorCorrectionLevel.Q
  | "H" => some ErrorCorrectionLevel.H
  | _ => none

/-- `decoder.rs:128-136` `convert_rqrr_ec`. -/
def convert_rqrr_ec (level : ℕ) : ErrorCorrectionLevel :=
  match level with
  | 0 => ErrorCorrectionLevel.M
  | 1 => ErrorCorrectionLevel.L
  | 2 => ErrorCorrectionLevel.H
  | 3 => ErrorCorrectionLevel.Q
  | _ => ErrorCorrectionLevel.M

/-- `decoder.rs:17-26` `RawDecode::into_result`: metadata is always `Some`,
the level defaulting to `M` (`unwrap_or`). -/
def RawDecode.into_result (self : RawDecode) : DecodeResult :=
  { content := self.content,
    metadata := some { error_correction := self.error_correction.getD ErrorCorrectionLevel.M } }

/-- `decoder.rs:37-68` `decode_rxing_with`: the whole library call runs inside
`std::panic::catch_unwind`, so a panic (`LibOutcome.panics`) and a library
error both become `DecodeFailed` (the two `map_err` at lines 52-54); on
success the `ERROR_CORRECTION_LEVEL` metadata string is parsed with
`parse_ec_level`. -/
def decode_rxing_with (call : LibOutcome RxingRaw) : Except QrScoreError RawDecode :=
  match call with
  | LibOutcome.panics => Except.error QrScoreError.DecodeFailed
  | LibOutcome.fails => Except.error QrScoreError.DecodeFailed
  | LibOutcome.ok r =>
      Except.ok { content := r.text, error_correction := r.ecMeta.bind parse_ec_level }

/-- `decoder.rs:70-83` `decode_rqrr`: NOT panic-guarded — a panic inside the
rqrr library propagates (`PanicOr.panicked`).  `GrayImage::from_raw` returns
`None` when the buffer is shorter than `width * height`; detection/decoding
failures become `DecodeFailed`; on success the ECC level is converted with
`convert_rqrr_ec` and the metadata is always present (`Some`). -/
def decode_rqrr (call : List ℕ → LibOutcome RqrrRaw) (luma_data : List ℕ)
    (width height : ℕ) : PanicOr (Except QrScoreError RawDecode) :=
  if luma_data.length < width * height then
    PanicOr.normal (Except.error QrScoreError.DecodeFailed)
  else
    match call luma_data with
    | LibOutcome.panics => PanicOr.panicked
    | LibOutcome.fails => PanicOr.normal (Except.error QrScoreError.DecodeFailed)
    | LibOutcome.ok r =>
        PanicOr.normal (Except.ok
          { content := r.content,
            error_correction := some (convert_rqrr_ec r.eccLevel) })

/-- `decoder.rs:86-109` `try_decode`: rxing with `HybridBinarizer`, rxing with
`GlobalHistogramBinarizer`, rqrr on the luma buffer, rqrr on the inverted
buffer (`255 - v` per byte), first success wins, else `DecodeFailed`. -/
def try_decode (env : DecodeEnv) : PanicOr (Except QrScoreError DecodeResult) :=
  match decode_rxing_with (env.rxingCall RxingBinarizer.hybrid) with
  | Except.ok r => PanicOr.normal (Except.ok r.into_result)
  | Except.error _ =>
    match decode_rxing_with (env.rxingCall RxingBinarizer.globalHistogram) with
    | Except.ok r => PanicOr.normal (Except.ok r.into_result)
    | Except.error _ =>
      match decode_rqrr env.rqrrCall env.luma env.width env.height with
      | PanicOr.panicked => PanicOr.panicked
      | PanicOr.normal (Except.ok r) => PanicOr.normal (Except.ok r.into_result)
      | PanicOr.normal (Except.error _) =>
        match decode_rqrr env.rqrrCall (env.luma.map fun v => 255 - v) env.width env.height with
        | PanicOr.panicked => PanicOr.panicked
        | PanicOr.normal (Except.ok r) => PanicOr.normal (Except.ok r.into_result)
        | PanicOr.normal (Except.error _) =>
          PanicOr.normal (Except.error QrScoreError.DecodeFailed)

/-- `decoder.rs:112-116` `multi_decode`: load the image (opaque; its result is
the `Except` argument), then `try_decode`. -/
def multi_decode (load : Except String DecodeEnv) :
    PanicOr (Except QrScoreError DecodeResult) :=
  match load with
  | Except.error e => PanicOr.normal (Except.error (QrScoreError.ImageLoad e))
  | Except.ok env => try_decode env

/-! ### Decoder theorems -/

/-- A concrete environment whose rqrr library call panics while both rxing
attempts merely fail. -/
def rqrrPanicEnv : DecodeEnv :=
  { luma := [0],
    width := 1,
    height := 1,
    rxingCall := fun _ => LibOutcome.fails,
    rqrrCall := fun _ => LibOutcome.panics }

/-- C1 counterexample: a panic inside the third attempt (rqrr on the luminance
image) is NOT caught at the attempt's boundary — `try_decode` itself panics
instead of proceeding to the remaining strategy. -/
theorem try_decode_rqrr_panic_escapes :
    try_decode rqrrPanicEnv = PanicOr.panicked := rfl

/-- Projection of a non-panicking attempt; only used under hypotheses that
rule the panic out. -/
def unwrapAttempt (a : PanicOr (Except QrScoreError RawDecode)) :
    Except QrScoreError RawDecode :=
  match a with
  | PanicOr.panicked => Except.error QrScoreError.DecodeFailed
  | PanicOr.normal r => r

theorem decode_rqrr_ne_panicked (call : List ℕ → LibOutcome RqrrRaw)
    (luma_data : List ℕ) (width height : ℕ)
    (h : call luma_data ≠ LibOutcome.panics) :
    decode_rqrr call luma_data width height ≠ PanicOr.panicked := by
  unfold decode_rqrr
  split
  · simp
  · cases hc : call luma_data with
    | panics => exact absurd hc h
    | fails => simp
    | ok r => simp

/-- C1 (amended): a panic inside either of the two rxing attempts is caught at
that attempt's boundary (`catch_unwind`), converted into that attempt's
failure, and the ensemble proceeds exactly as if the attempt had failed; the
two rqrr attempts carry no such guard inside `try_decode`, but as long as the
rqrr library calls return (do not panic), `try_decode` does not panic. -/
theorem try_decode_panic_isolation :
    (decode_rxing_with LibOutcome.panics = Except.error QrScoreError.DecodeFailed) ∧
    (∀ env : DecodeEnv, env.rxingCall RxingBinarizer.hybrid = LibOutcome.panics →
      try_decode env = try_decode { env with
        rxingCall := fun b =>
          if b = RxingBinarizer.hybrid then LibOutcome.fails else env.rxingCall b }) ∧
    (∀ env : DecodeEnv, env.rxingCall RxingBinarizer.globalHistogram = LibOutcome.panics →
      try_decode env = try_decode { env with
        rxingCall := fun b =>
          if b = RxingBinarizer.globalHistogram then LibOutcome.fails else env.rxingCall b }) ∧
    (∀ env : DecodeEnv, env.rqrrCall env.luma ≠ LibOutcome.panics →
      env.rqrrCall (env.luma.map fun v => 255 - v) ≠ LibOutcome.panics →
      try_decode env ≠ PanicOr.panicked) := by
  refine ⟨rfl, ?_, ?_, ?_⟩
  · intro env h
    unfold try_decode
    simp only [h]
    rfl
  · intro env h
    unfold try_decode
    simp only [h]
    cases env.rxingCall RxingBinarizer.hybrid <;> rfl
  · intro env h1 h2
    have hn1 := decode_rqrr_ne_panicked env.rqrrCall env.luma env.width env.height h1
    have hn2 := decode_rqrr_ne_panicked env.rqrrCall (env.luma.map fun v => 255 - v)
      env.width env.height h2
    unfold try_decode
    cases decode_rxing_with (env.rxingCall RxingBinarizer.hybrid) with
    | ok r => simp
    | error e1 =>
      cases decode_rxing_with (env.rxingCall RxingBinarizer.globalHistogram) with
      | ok r => simp
      | error e2 =>
        cases hq1 : decode_rqrr env.rqrrCall env.luma env.width env.height with
        | panicked => exact absurd hq1 hn1
        | normal r3 =>
          cases r3 with
          | ok r => simp
          | error e3 =>
            cases hq2 : decode_rqrr env.rqrrCall (env.luma.map fun v => 255 - v)
                env.width env.height with
            | panicked => exact absurd hq2 hn2
            | normal r4 => cases r4 <;> simp

/-- A concrete all-failing environment (no library call panics). -/
def allFailEnv : DecodeEnv :=
  { luma := [0],
    width := 1,
    height := 1,
    rxingCall := fun _ => LibOutcome.fails,
    rqrrCall := fun _ => LibOutcome.fails }

theorem try_decode_panic_isolation_witness :
    try_decode allFailEnv ≠ PanicOr.panicked :=
  try_decode_panic_isolation.2.2.2 allFailEnv (by decide) (by decide)

/-- The four attempt outcomes of `try_decode`, in the source's fixed order
(spec §4.1): rxing hybrid, rxing global-histogram, rqrr on the luminance
image, rqrr on the pixel-inverted luminance image. -/
def attempt_results (env : DecodeEnv) : List (Except QrScoreError RawDecode) :=
  [decode_rxing_with (env.rxingCall RxingBinarizer.hybrid),
   decode_rxing_with (env.rxingCall RxingBinarizer.globalHistogram),
   unwrapAttempt (decode_rqrr env.rqrrCall env.luma env.width env.height),
   unwrapAttempt (decode_rqrr env.rqrrCall (env.luma.map fun v => 255 - v)
     env.width env.height)]

/-- Written from the spec's words (§4.1) for claim C6: try the strategies in
order, return the first success, and `DecodeFailed` when none succeeds. -/
def first_success : List (Except QrScoreError RawDecode) →
    Except QrScoreError DecodeResult
  | [] => Except.error QrScoreError.DecodeFailed
  | Except.ok r :: _ => Except.ok r.into_result
  | Except.error _ :: rest => first_success rest

/-- C6: as long as the (unguarded) rqrr library calls return, `try_decode`
returns the first success of the four strategies in the fixed order, and
returns `DecodeFailed` exactly when all four attempts fail. -/
theorem try_decode_first_success (env : DecodeEnv)
    (h1 : env.rqrrCall env.luma ≠ LibOutcome.panics)
    (h2 : env.rqrrCall (env.luma.map fun v => 255 - v) ≠ LibOutcome.panics) :
    try_decode env = PanicOr.normal (first_success (attempt_results env)) ∧
    (try_decode env = PanicOr.normal (Except.error QrScoreError.DecodeFailed) ↔
      ∀ a ∈ attempt_results env, ∀ r, a ≠ Except.ok r) := by
  have hn1 := decode_rqrr_ne_panicked env.rqrrCall env.luma env.width env.height h1
  have hn2 := decode_rqrr_ne_panicked env.rqrrCall (env.luma.map fun v => 255 - v)
    env.width env.height h2
  obtain ⟨q1, hq1⟩ : ∃ q, decode_rqrr env.rqrrCall env.luma env.width env.height =
      PanicOr.normal q := by
    cases hq : decode_rqrr env.rqrrCall env.luma env.width env.height with
    | panicked => exact absurd hq hn1
    | normal q => exact ⟨q, rfl⟩
  obtain ⟨q2, hq2⟩ : ∃ q, decode_rqrr env.rqrrCall (env.luma.map fun v => 255 - v)
      env.width env.height = PanicOr.normal q := by
    cases hq : decode_rqrr env.rqrrCall (env.luma.map fun v => 255 - v)
        env.width env.height with
    | panicked => exact absurd hq hn2
    | normal q => exact ⟨q, rfl⟩
  unfold try_decode attempt_results
  rw [hq1, hq2]
  cases decode_rxing_with (env.rxingCall RxingBinarizer.hybrid) with
  | ok r => simp [first_success, unwrapAttempt]
  | error e1 =>
    cases decode_rxing_with (env.rxingCall RxingBinarizer.globalHistogram) with
    | ok r => simp [first_success, unwrapAttempt]
    | error e2 =>
      cases q1 with
      | ok r => simp [first_success, unwrapAttempt]
      | error e3 =>
        cases q2 with
        | ok r => simp [first_success, unwrapAttempt]
        | error e4 => simp [first_success, unwrapAttempt]

theorem try_decode_first_success_witness :
    try_decode allFailEnv =
      PanicOr.normal (first_success (attempt_results allFailEnv)) :=
  (try_decode_first_success allFailEnv (by decide) (by decide)).1

/-- A concrete environment whose first (rxing hybrid) attempt succeeds with no
error-correction metadata reported. -/
def hybridOkEnv : DecodeEnv :=
  { luma := [0],
    width := 1,
    height := 1,
    rxingCall := fun _ => LibOutcome.ok { text := "hello", ecMeta := none },
    rqrrCall := fun _ => LibOutcome.fails }

/-- C10: every successful decode out of `try_decode` (and `multi_decode`)
carries `metadata = Some _` — the error-correction level lives in the closed
enum `{L, M, Q, H}` by type — and `into_result` defaults the level to `M`
whenever the underlying decoder reported none (or an unparseable one, which
`parse_ec_level` already turned into `none`). -/
theorem try_decode_metadata_some :
    (∀ (env : DecodeEnv) (r : DecodeResult),
      try_decode env = PanicOr.normal (Except.ok r) →
      ∃ lvl, r.metadata = some { error_correction := lvl }) ∧
    (∀ (load : Except String DecodeEnv) (r : DecodeResult),
      multi_decode load = PanicOr.normal (Except.ok r) →
      ∃ lvl, r.metadata = some { error_correction := lvl }) ∧
    (∀ raw : RawDecode, raw.into_result.metadata =
      some { error_correction := raw.error_correction.getD ErrorCorrectionLevel.M }) := by
  have hmain : ∀ (env : DecodeEnv) (r : DecodeResult),
      try_decode env = PanicOr.normal (Except.ok r) →
      ∃ lvl, r.metadata = some { error_correction := lvl } := by
    intro env r h
    have hr : ∃ raw : RawDecode, r = raw.into_result := by
      unfold try_decode at h
      repeat' split at h
      all_goals cases h
      all_goals exact ⟨_, rfl⟩
    obtain ⟨raw, hraw⟩ := hr
    exact ⟨raw.error_correction.getD ErrorCorrectionLevel.M, by rw [hraw]; rfl⟩
  refine ⟨hmain, ?_, fun raw => rfl⟩
  intro load r h
  cases load with
  | error e => simp [multi_decode] at h
  | ok env => exact hmain env r h

theorem try_decode_metadata_some_witness :
    ∃ lvl, (DecodeResult.mk "hello"
        (some { error_correction := ErrorCorrectionLevel.M })).metadata =
      some { error_correction := lvl } :=
  try_decode_metadata_some.1 hybridOkEnv
    (DecodeResult.mk "hello" (some { error_correction := ErrorCorrectionLevel.M })) rfl

/-! ## Top-level validation (src/lib.rs, src/scorer.rs `validate`) -/

/-- `lib.rs:15` `const MAX_DIMENSION: u32 = 10_000`. -/
def MAX_DIMENSION : ℕ := 10000

/-- `lib.rs:17-29` `validate_dimensions`: the per-side maximum is checked
first; then `width.checked_mul(height)` — `None` exactly when the u32 product
would overflow, i.e. when `width * height ≥ 2^32`. -/
def validate_dimensions (width height : ℕ) : Except QrScoreError Unit :=
  if MAX_DIMENSION < width ∨ MAX_DIMENSION < height then
    Except.error (QrScoreError.DimensionsTooLarge width height MAX_DIMENSION)
  else if 2 ^ 32 ≤ width * height then
    Except.error (QrScoreError.DimensionOverflow width height)
  else
    Except.ok ()

/-- A loaded raster image as `lib.rs` `validate` consumes it: its dimensions,
the behaviour of the external decoders on it (`denv`), and the outcome of
`run_stress_tests` on it (`stress` — the stress matrix itself exercises the
image-transform library and the parallel fan-out, both external here). -/
structure LoadedImage where
  width : ℕ
  height : ℕ
  denv : DecodeEnv
  stress : StressResults

/-- `scorer.rs:8-12` `validate`: run the stress tests (their outcome is the
abstracted `stress`), then score them. -/
def scorer_validate (stress : StressResults) (w : Weights) : StressResults × ℕ :=
  (stress, calculate_score stress w)

/-- `lib.rs:31-48` `validate`: load the image (opaque — the `Except String`
argument), guard the dimensions, decode the original image (`?` operator:
a decode failure propagates as the error), then stress-test and score.  A
panic escaping `try_decode` escapes `validate` too. -/
def validate (load : Except String LoadedImage) (w : Weights) :
    PanicOr (Except QrScoreError ValidationResult) :=
  match load with
  | Except.error e => PanicOr.normal (Except.error (QrScoreError.ImageLoad e))
  | Except.ok img =>
    match validate_dimensions img.width img.height with
    | Except.error e => PanicOr.normal (Except.error e)
    | Except.ok _ =>
      match try_decode img.denv with
      | PanicOr.panicked => PanicOr.panicked
      | PanicOr.normal (Except.error e) => PanicOr.normal (Except.error e)
      | PanicOr.normal (Except.ok dr) =>
        PanicOr.normal (Except.ok
          { score := (scorer_validate img.stress w).2,
            decodable := true,
            content := some dr.content,
            metadata := dr.metadata,
            stress_results := (scorer_validate img.stress w).1 })

/-- Every error `try_decode` returns (as opposed to panics or successes) is
`DecodeFailed`. -/
theorem try_decode_error_eq (env : DecodeEnv) (e : QrScoreError)
    (h : try_decode env = PanicOr.normal (Except.error e)) :
    e = QrScoreError.DecodeFailed := by
  unfold try_decode at h
  repeat' split at h
  all_goals cases h
  · rfl

/-- C7: the dimension guard runs before any decode attempt — an oversized
image is rejected with `DimensionsTooLarge` no matter what the decoders would
do — a decode failure on the original image surfaces as the hard error
`DecodeFailed`, and a success payload exists only when the baseline decode
succeeded. -/
theorem validate_guard_and_errors :
    (∀ (img : LoadedImage) (w : Weights),
      MAX_DIMENSION < img.width ∨ MAX_DIMENSION < img.height →
      validate (Except.ok img) w = PanicOr.normal (Except.error
        (QrScoreError.DimensionsTooLarge img.width img.height MAX_DIMENSION))) ∧
    (∀ (img : LoadedImage) (w : Weights),
      validate_dimensions img.width img.height = Except.ok () →
      try_decode img.denv = PanicOr.normal (Except.error QrScoreError.DecodeFailed) →
      validate (Except.ok img) w =
        PanicOr.normal (Except.error QrScoreError.DecodeFailed)) ∧
    (∀ (load : Except String LoadedImage) (w : Weights) (res : ValidationResult),
      validate load w = PanicOr.normal (Except.ok res) →
      ∃ img dr, load = Except.ok img ∧
        try_decode img.denv = PanicOr.normal (Except.ok dr) ∧
        res.content = some dr.content) := by
  refine ⟨?_, ?_, ?_⟩
  · intro img w h
    have hvd : validate_dimensions img.width img.height = Except.error
        (QrScoreError.DimensionsTooLarge img.width img.height MAX_DIMENSION) := by
      unfold validate_dimensions
      rw [if_pos h]
    simp [validate, hvd]
  · intro img w hdim hdec
    simp [validate, hdim, hdec]
  · intro load w res h
    cases load with
    | error e => cases h
    | ok img =>
      refine ⟨img, ?_⟩
      simp only [validate] at h
      split at h
      · cases h
      · split at h
        · cases h
        · cases h
        · rename_i dr hdr
          cases h
          exact ⟨dr, rfl, hdr, rfl⟩

/-- A concrete oversized image (width 10001) over an all-failing decoder. -/
def oversizedImage : LoadedImage :=
  { width := 10001, height := 1, denv := allFailEnv, stress := ⟨[], 0⟩ }

theorem validate_guard_and_errors_witness :
    validate (Except.ok oversizedImage) ⟨[], 0⟩ = PanicOr.normal (Except.error
      (QrScoreError.DimensionsTooLarge 10001 1 MAX_DIMENSION)) :=
  validate_guard_and_errors.1 oversizedImage ⟨[], 0⟩
    (Or.inl (by norm_num [MAX_DIMENSION, oversizedImage]))

/-- C9: the `DimensionOverflow` branch of `validate_dimensions` is
unreachable — any width and height that pass the `MAX_DIMENSION` check have a
product of at most `10^8 < 2^32` — so neither `validate_dimensions` nor
`validate` ever produces that error. -/
theorem dimension_overflow_unreachable (width height w2 h2 : ℕ)
    (load : Except String LoadedImage) (w : Weights) :
    (validate_dimensions width height ≠
      Except.error (QrScoreError.DimensionOverflow w2 h2)) ∧
    (validate load w ≠
      PanicOr.normal (Except.error (QrScoreError.DimensionOverflow w2 h2))) := by
  have hvd : ∀ a b c d : ℕ,
      validate_dimensions a b ≠ Except.error (QrScoreError.DimensionOverflow c d) := by
    intro a b c d
    unfold validate_dimensions
    split
    · simp
    · rename_i hle
      push_neg at hle
      rw [if_neg]
      · simp
      · push_neg
        calc a * b ≤ MAX_DIMENSION * MAX_DIMENSION :=
              Nat.mul_le_mul hle.1 hle.2
          _ < 2 ^ 32 := by norm_num [MAX_DIMENSION]
  refine ⟨hvd width height w2 h2, ?_⟩
  cases load with
  | error e => simp [validate]
  | ok img =>
    intro h
    simp only [validate] at h
    split at h
    · rename_i e hdim
      cases h
      exact hvd img.width img.height w2 h2 hdim
    · split at h
      · cases h
      · rename_i e hdec
        cases h
        have := try_decode_error_eq img.denv _ hdec
        simp at this
      · cases h

/-! ## Contrast meter (src/scorer.rs, `measure_contrast`)

An image is its list of RGB pixels (`to_rgb8` raw bytes in `chunks_exact(3)`
groups).  The sRGB linearization uses a real power (`powf(2.4)`), so the
front end lives in ℝ; the histogram and the percentile walk are exact
(bin indices over 1001 bins, `i as f32 / 1000.0` represented as the rational
`i / 1000`). -/

/-- One RGB pixel, each channel an 8-bit value. -/
abbrev Pixel := ℕ × ℕ × ℕ

/-- `scorer.rs:131-138` `srgb_linearize`. -/
noncomputable def srgb_linearize (v : ℕ) : ℝ :=
  if (v : ℝ) / 255 ≤ 0.03928 then
    ((v : ℝ) / 255) / 12.92
  else
    (((v : ℝ) / 255 + 0.055) / 1.055) ^ (2.4 : ℝ)

/-- `scorer.rs:140-142` `relative_luminance` (BT.709 weights). -/
noncomputable def relative_luminance (p : Pixel) : ℝ :=
  0.2126 * srgb_linearize p.1 + 0.7152 * srgb_linearize p.2.1 +
    0.0722 * srgb_linearize p.2.2

/-- `scorer.rs:158` `(lum * 1000.0).round().min(1000.0) as usize` — the
`as usize` cast saturates negatives at 0, which `Int.toNat` matches. -/
noncomputable def lum_bin (p : Pixel) : ℕ :=
  (min (round (relative_luminance p * 1000)) 1000).toNat

/-- `scorer.rs:159` `histogram[bin] += 1`. -/
def bump (l : List ℕ) (i : ℕ) : List ℕ :=
  l.set i (l.getD i 0 + 1)

/-- `scorer.rs:153-160`: the 1001-bin histogram, built pixel by pixel. -/
noncomputable def histogramOf (pixels : List Pixel) : List ℕ :=
  pixels.foldl (fun h p => bump h (lum_bin p)) (List.replicate 1001 0)

/-- `scorer.rs:166-180`: the percentile walk.  Arguments: remaining bins,
current index `i`, `cumulative` so far, the two targets, and the running
`p5`/`p95` values (initially `0.0` and `1.0`).  In the source, `prev` is the
cumulative count before the bin and the walk breaks as soon as the p95 bin is
found; the p5 update in the same iteration happens first. -/
def percentile_scan : List ℕ → ℕ → ℕ → ℕ → ℕ → ℚ → ℚ → ℚ × ℚ
  | [], _, _, _, _, p5, p95 => (p5, p95)
  | count :: rest, i, cumulative, p5_target, p95_target, p5, p95 =>
    if cumulative < p95_target ∧ p95_target ≤ cumulative + count then
      (if cumulative < p5_target ∧ p5_target ≤ cumulative + count then
        (i : ℚ) / 1000 else p5,
       (i : ℚ) / 1000)
    else
      percentile_scan rest (i + 1) (cumulative + count) p5_target p95_target
        (if cumulative < p5_target ∧ p5_target ≤ cumulative + count then
          (i : ℚ) / 1000 else p5)
        p95

/-- `scorer.rs:144-183` `measure_contrast`: empty raw buffer returns `0.0`;
otherwise `p5_target = total / 20`, `p95_target = total - p5_target`, walk
the histogram and return `p95 - p5`. -/
noncomputable def measure_contrast (pixels : List Pixel) : ℚ :=
  if pixels = [] then 0
  else
    let total := pixels.length
    let pq := percentile_scan (histogramOf pixels) 0 0 (total / 20) (total - total / 20) 0 1
    pq.2 - pq.1

/-! ### Contrast-meter lemmas -/

theorem lum_bin_le (p : Pixel) : lum_bin p ≤ 1000 := by
  unfold lum_bin
  have h := Int.toNat_le_toNat (min_le_right (round (relative_luminance p * 1000)) 1000)
  simpa using h

/-- Setting entry `b` of an all-zero list of length `b + k + 1`. -/
theorem replicate_set_eq (b k x : ℕ) :
    (List.replicate (b + k + 1) (0 : ℕ)).set b x =
      List.replicate b 0 ++ x :: List.replicate k 0 := by
  induction b with
  | zero => simp [List.replicate_succ]
  | succ b ih =>
    have h : b + 1 + k + 1 = (b + k + 1) + 1 := by omega
    rw [h, List.replicate_succ, List.set_cons_succ, ih, List.replicate_succ,
      List.cons_append]

theorem replicate_set_zero (b k : ℕ) :
    (List.replicate (b + k + 1) (0 : ℕ)).set b 0 = List.replicate (b + k + 1) 0 := by
  rw [replicate_set_eq]
  have h1 : (0 : ℕ) :: List.replicate k 0 = List.replicate (k + 1) 0 :=
    (List.replicate_succ 0 k).symm
  rw [h1, ← List.replicate_add, show b + (k + 1) = b + k + 1 from by omega]

theorem bump_set_self (N b m : ℕ) (h : b < N) :
    bump ((List.replicate N (0 : ℕ)).set b m) b = (List.replicate N 0).set b (m + 1) := by
  unfold bump
  rw [List.set_set]
  congr 1
  simp [List.getD, List.getElem?_set, h]

/-- Folding `n` identical pixels into the histogram accumulates `n` in the
pixel's bin. -/
theorem foldl_bump_replicate (p : Pixel) (n m : ℕ) :
    (List.replicate n p).foldl (fun h q => bump h (lum_bin q))
        ((List.replicate 1001 (0 : ℕ)).set (lum_bin p) m) =
      (List.replicate 1001 0).set (lum_bin p) (m + n) := by
  induction n generalizing m with
  | zero => rfl
  | succ n ih =>
    rw [show List.replicate (n + 1) p = p :: List.replicate n p from List.replicate_succ p n,
      List.foldl_cons,
      bump_set_self 1001 (lum_bin p) m (lt_of_le_of_lt (lum_bin_le p) (by norm_num)),
      ih (m + 1)]
    congr 1
    omega

theorem histogramOf_replicate (p : Pixel) (n : ℕ) :
    histogramOf (List.replicate n p) = (List.replicate 1001 (0 : ℕ)).set (lum_bin p) n := by
  have hb : lum_bin p + (1000 - lum_bin p) + 1 = 1001 := by
    have := lum_bin_le p
    omega
  have hz : (List.replicate 1001 (0 : ℕ)).set (lum_bin p) 0 = List.replicate 1001 0 := by
    calc (List.replicate 1001 (0 : ℕ)).set (lum_bin p) 0
        = (List.replicate (lum_bin p + (1000 - lum_bin p) + 1) (0 : ℕ)).set (lum_bin p) 0 := by
          rw [hb]
      _ = List.replicate (lum_bin p + (1000 - lum_bin p) + 1) 0 := replicate_set_zero _ _
      _ = List.replicate 1001 0 := by rw [hb]
  unfold histogramOf
  conv_lhs => rw [← hz]
  rw [foldl_bump_replicate p n 0, show 0 + n = n from by omega]

theorem percentile_scan_cons (count : ℕ) (rest : List ℕ) (i cum t1 t2 : ℕ)
    (p5 p95 : ℚ) :
    percentile_scan (count :: rest) i cum t1 t2 p5 p95 =
      if cum < t2 ∧ t2 ≤ cum + count then
        (if cum < t1 ∧ t1 ≤ cum + count then (i : ℚ) / 1000 else p5, (i : ℚ) / 1000)
      else
        percentile_scan rest (i + 1) (cum + count) t1 t2
          (if cum < t1 ∧ t1 ≤ cum + count then (i : ℚ) / 1000 else p5) p95 := rfl

/-- The walk skips leading empty bins untouched. -/
theorem percentile_scan_skip (m : ℕ) (rest : List ℕ) (i cum t1 t2 : ℕ) (p5 p95 : ℚ) :
    percentile_scan (List.replicate m 0 ++ rest) i cum t1 t2 p5 p95 =
      percentile_scan rest (i + m) cum t1 t2 p5 p95 := by
  induction m generalizing i with
  | zero =>
    rw [List.replicate_zero, List.nil_append, Nat.add_zero]
  | succ m ih =>
    rw [List.replicate_succ, List.cons_append, percentile_scan_cons,
      if_neg (by omega), if_neg (by omega)]
    simp only [Nat.add_zero]
    rw [ih (i + 1), show i + 1 + m = i + (m + 1) from by omega]

/-- The walk over a single occupied bin, both targets landing in it. -/
theorem percentile_scan_single (b k n t1 t2 : ℕ) (h1 : 1 ≤ t1) (h1n : t1 ≤ n)
    (h2 : 1 ≤ t2) (h2n : t2 ≤ n) :
    percentile_scan (List.replicate b 0 ++ n :: List.replicate k 0) 0 0 t1 t2 0 1 =
      ((b : ℚ) / 1000, (b : ℚ) / 1000) := by
  rw [percentile_scan_skip, percentile_scan_cons, if_pos (by omega), if_pos (by omega)]
  simp

/-- C3 (amended): `measure_contrast` of an empty image is exactly `0.0`, and
of a uniform image with at least 20 pixels is exactly `0.0` (hence within
0.01); with fewer than 20 pixels `p5_target = total / 20 = 0`, the p5 update
never fires, and a bright uniform image measures up to `1.0` (see the
counterexample). -/
theorem measure_contrast_uniform :
    measure_contrast [] = 0 ∧
    ∀ (l : List Pixel) (p : Pixel), 20 ≤ l.length → (∀ q ∈ l, q = p) →
      measure_contrast l = 0 := by
  constructor
  · simp [measure_contrast]
  · intro l p hlen hall
    rw [List.eq_replicate_of_mem hall]
    have hbin := lum_bin_le p
    have hne : List.replicate l.length p ≠ [] :=
      List.length_pos.mp (by rw [List.length_replicate]; omega)
    unfold measure_contrast
    rw [if_neg hne]
    dsimp only
    rw [histogramOf_replicate]
    simp only [List.length_replicate]
    rw [show (List.replicate 1001 (0 : ℕ)) =
        List.replicate (lum_bin p + (1000 - lum_bin p) + 1) 0 from by
      rw [show lum_bin p + (1000 - lum_bin p) + 1 = 1001 from by omega]]
    rw [replicate_set_eq]
    have hdiv1 : 1 ≤ l.length / 20 := (Nat.one_le_div_iff (by norm_num)).mpr hlen
    have hdivlt : l.length / 20 < l.length :=
      Nat.div_lt_self (by omega) (by norm_num)
    rw [percentile_scan_single (lum_bin p) (1000 - lum_bin p) l.length
      (l.length / 20) (l.length - l.length / 20) hdiv1 (Nat.div_le_self _ _)
      (by omega) (by omega)]
    simp

theorem srgb_linearize_255 : srgb_linearize 255 = 1 := by
  unfold srgb_linearize
  rw [if_neg (by norm_num)]
  rw [show (((255 : ℕ) : ℝ) / 255 + 0.055) / 1.055 = 1 from by norm_num]
  exact Real.one_rpow _

theorem relative_luminance_white :
    relative_luminance ((255 : ℕ), (255 : ℕ), (255 : ℕ)) = 1 := by
  unfold relative_luminance
  dsimp only
  rw [srgb_linearize_255]
  norm_num

theorem lum_bin_white : lum_bin ((255 : ℕ), (255 : ℕ), (255 : ℕ)) = 1000 := by
  unfold lum_bin
  rw [relative_luminance_white, show (1 : ℝ) * 1000 = 1000 from by norm_num,
    round_ofNat]
  decide

/-- C3 counterexample: a non-empty uniform image — one pure-white pixel —
measures `1.0`, far outside 0.01 of `0.0`: with a single pixel
`p5_target = 0`, so `p5` keeps its initial `0.0` while `p95` lands in the
white bin `1000`. -/
theorem measure_contrast_white_cex :
    measure_contrast [((255 : ℕ), (255 : ℕ), (255 : ℕ))] = 1 ∧
    ¬ |measure_contrast [((255 : ℕ), (255 : ℕ), (255 : ℕ))] - 0| ≤ 1 / 100 := by
  have h1 : measure_contrast [((255 : ℕ), (255 : ℕ), (255 : ℕ))] = 1 := by
    unfold measure_contrast
    rw [if_neg (by simp)]
    dsimp only
    rw [show [((255 : ℕ), (255 : ℕ), (255 : ℕ))] =
        List.replicate 1 ((255 : ℕ), (255 : ℕ), (255 : ℕ)) from rfl,
      histogramOf_replicate, lum_bin_white]
    simp only [List.length_replicate]
    norm_num
    rw [show (List.replicate 1001 (0 : ℕ)) = List.replicate (1000 + 0 + 1) 0 from by
        norm_num,
      replicate_set_eq 1000 0 1, percentile_scan_skip, percentile_scan_cons,
      if_pos (by omega), if_neg (by omega)]
    norm_num
  exact ⟨h1, by rw [h1]; norm_num⟩

theorem measure_contrast_uniform_witness :
    measure_contrast (List.replicate 20 ((0 : ℕ), (0 : ℕ), (0 : ℕ))) = 0 :=
  measure_contrast_uniform.2 (List.replicate 20 ((0 : ℕ), (0 : ℕ), (0 : ℕ)))
    ((0 : ℕ), (0 : ℕ), (0 : ℕ)) (by simp)
    (fun q hq => List.eq_of_mem_replicate hq)

end QrScore
